import Mathlib

/-
  Verification of the cryptosearch crypto-dashboard core against its
  natural-language specification.

  The embedding translates, from the TypeScript source:
  - the canonical candle record (types.ts KlineData),
  - the stream merge callback of App.tsx loadData (subscribeToKline merge),
  - the indicator engine (utils/indicators.ts: calculateEMA, calculateRSI,
    calculateKDJ, calculateSAR),
  - the fetch layer of services/binanceService.ts (fetchWithFallback,
    getExchangeSymbol, fetchAvailableTickers, fetchKlines) over an explicit
    environment that supplies the outcomes of the browser primitives
    (fetch, JSON.parse, parseFloat, parseInt, encodeURIComponent).

  JavaScript numbers are modelled as exact rationals; the one place where
  IEEE special values are observable (the RSI division avgGain/avgLoss) is
  modelled by an explicit value type with a NaN constructor.
-/

/-- Canonical candle record; mirrors KlineData of types.ts. -/
structure KlineData where
  time : ℚ
  «open» : ℚ
  high : ℚ
  low : ℚ
  close : ℚ
  volume : ℚ
deriving DecidableEq, Inhabited

/-- Candle with the given time and zero prices, for concrete test inputs. -/
def mkC (t : ℚ) : KlineData :=
  ⟨t, 0, 0, 0, 0, 0⟩

/-- Stream merge callback of App.tsx loadData (lines 186-205): an empty
series is left unchanged; a candle whose time equals the last stored time
replaces the last element; otherwise the candle is appended, and when the
current length exceeds 500 the head is dropped first. -/
def mergeOne (cur : List KlineData) (c : KlineData) : List KlineData :=
  if cur.length = 0 then cur
  else
    match cur.getLast? with
    | none => cur
    | some last =>
      if c.time = last.time then cur.dropLast ++ [c]
      else if 500 < cur.length then cur.tail ++ [c]
      else cur ++ [c]

/-- Time values strictly increase along the series. -/
@[reducible] def TimesSIncr (l : List KlineData) : Prop :=
  l.Pairwise (fun a b => a.time < b.time)

/-- A 500-candle series with times 0..499. -/
def big500 : List KlineData :=
  (List.range 500).map (fun i : ℕ => mkC (i : ℚ))

theorem big500_length : big500.length = 500 := by
  unfold big500
  rw [List.length_map, List.length_range]

theorem mergeOne_nonempty_spec (cur : List KlineData) (c last : KlineData)
    (hlast : cur.getLast? = some last) :
    (c.time = last.time → (mergeOne cur c).length = cur.length) ∧
    (c.time ≠ last.time → cur.length ≤ 500 →
      (mergeOne cur c).length = cur.length + 1) ∧
    (c.time ≠ last.time → 500 < cur.length →
      (mergeOne cur c).length = cur.length) := by
  have hne : cur ≠ [] := by
    intro h; rw [h] at hlast; simp at hlast
  have hlen : cur.length ≠ 0 := by
    simpa [List.length_eq_zero] using hne
  have hpos : 0 < cur.length := Nat.pos_of_ne_zero hlen
  unfold mergeOne
  rw [if_neg hlen, hlast]
  dsimp only
  refine ⟨?_, ?_, ?_⟩
  · intro heq
    rw [if_pos heq]
    simp [List.length_dropLast]
    omega
  · intro hne' hle
    rw [if_neg hne', if_neg (by omega)]
    simp
  · intro hne' hgt
    rw [if_neg hne', if_pos hgt]
    simp [List.length_tail]
    omega

/-- Every element of a time-sorted nonempty series has time at most the
last element's time. -/
theorem time_le_getLast (cur : List KlineData) (last : KlineData)
    (hlast : cur.getLast? = some last) (hinc : TimesSIncr cur) :
    ∀ a ∈ cur, a.time ≤ last.time := by
  intro a ha
  have hdecomp : cur.dropLast ++ [last] = cur :=
    List.dropLast_append_getLast? last hlast
  rw [← hdecomp] at hinc ha
  rcases List.mem_append.mp ha with hd | hl
  · have := (List.pairwise_append.mp hinc).2.2 a hd last (by simp)
    exact le_of_lt this
  · simp at hl
    rw [hl]

/-- C1 (amended part). Merge-length behaviour of the stream merge callback:
with a nonempty stored series, a candle with the last stored time replaces
the last element (length unchanged); a candle with a different time is
appended whenever the stored length is at most 500 (length+1, so the length
can reach 501); the oldest element is evicted only when the stored length
already exceeds 500, keeping the length constant; consequently a length
that is at most 501 stays at most 501. -/
theorem mergeOne_length_spec (cur : List KlineData) (c last : KlineData)
    (hlast : cur.getLast? = some last) :
    (c.time = last.time → (mergeOne cur c).length = cur.length) ∧
    (c.time ≠ last.time → cur.length ≤ 500 →
      (mergeOne cur c).length = cur.length + 1) ∧
    (c.time ≠ last.time → 500 < cur.length →
      (mergeOne cur c).length = cur.length) ∧
    (cur.length ≤ 501 → (mergeOne cur c).length ≤ 501) := by
  obtain ⟨h1, h2, h3⟩ := mergeOne_nonempty_spec cur c last hlast
  refine ⟨h1, h2, h3, ?_⟩
  intro hle
  by_cases heq : c.time = last.time
  · rw [h1 heq]; exact hle
  · by_cases hgt : 500 < cur.length
    · rw [h3 heq hgt]; exact hle
    · rw [h2 heq (by omega)]; omega

/-- C1 witness: the length specification evaluated on a concrete
three-candle series and appended fourth candle. -/
theorem mergeOne_length_spec_witness :
    ([mkC 0, mkC 1, mkC 2].getLast? = some (mkC 2)) ∧
    ((mkC 3).time ≠ (mkC 2).time) ∧ ([mkC 0, mkC 1, mkC 2] : List KlineData).length ≤ 500 ∧
    (mergeOne [mkC 0, mkC 1, mkC 2] (mkC 3)).length = [mkC 0, mkC 1, mkC 2].length + 1 :=
  ⟨by rfl, by decide, by decide,
    (mergeOne_length_spec [mkC 0, mkC 1, mkC 2] (mkC 3) (mkC 2) (by rfl)).2.1
      (by decide) (by decide)⟩

set_option maxRecDepth 4000 in
/-- C1 counterexample: merging a fresh-time candle into a series that
already holds exactly 500 candles appends without eviction, so the
resulting length is 501, exceeding the stated cap of 500. -/
theorem mergeOne_cap_counterexample :
    big500.length = 500 ∧ (mergeOne big500 (mkC 1000)).length = 501 := by
  constructor
  · exact big500_length
  · have hne : big500.length ≠ 0 := by rw [big500_length]; omega
    unfold mergeOne
    rw [if_neg hne]
    have hlast : big500.getLast? = some (mkC 499) := by decide
    rw [hlast]
    dsimp only
    rw [if_neg (by decide), if_neg (by rw [big500_length]; omega)]
    rw [List.length_append, big500_length]
    rfl

/-- C10. The stream merge callback leaves an empty series unchanged: a
live stream update can never populate an empty series. -/
theorem mergeOne_empty (c : KlineData) : mergeOne [] c = [] := rfl

/-- C4 (amended part). The strictly-increasing-times invariant is
preserved by the stream merge callback provided the incoming candle's time
is at least the last stored time: an equal time replaces the last element
and a larger time is appended (with or without eviction of the head). -/
theorem mergeOne_preserves_strict_times (cur : List KlineData)
    (c last : KlineData) (hlast : cur.getLast? = some last)
    (hinc : TimesSIncr cur) (hge : last.time ≤ c.time) :
    TimesSIncr (mergeOne cur c) := by
  have hlen : cur.length ≠ 0 := by
    intro h
    rw [List.length_eq_zero] at h
    rw [h] at hlast
    simp at hlast
  have hdecomp : cur.dropLast ++ [last] = cur :=
    List.dropLast_append_getLast? last hlast
  have hmem := time_le_getLast cur last hlast hinc
  have hdl : TimesSIncr cur.dropLast :=
    hinc.sublist (List.dropLast_sublist cur)
  have hdl_lt : ∀ a ∈ cur.dropLast, a.time < last.time := by
    intro a ha
    have hinc' := hinc
    rw [← hdecomp] at hinc'
    exact (List.pairwise_append.mp hinc').2.2 a ha last (by simp)
  unfold mergeOne
  rw [if_neg hlen, hlast]
  dsimp only
  by_cases heq : c.time = last.time
  · rw [if_pos heq]
    refine List.pairwise_append.mpr ⟨hdl, by simp [TimesSIncr], ?_⟩
    intro a ha b hb
    simp at hb
    rw [hb, heq]
    exact hdl_lt a ha
  · have hlt : last.time < c.time := lt_of_le_of_ne hge (by
      intro h; exact heq h.symm)
    have hall : ∀ a ∈ cur, a.time < c.time := by
      intro a ha
      exact lt_of_le_of_lt (hmem a ha) hlt
    rw [if_neg heq]
    by_cases hgt : 500 < cur.length
    · rw [if_pos hgt]
      refine List.pairwise_append.mpr
        ⟨hinc.sublist (List.tail_sublist cur), by simp [TimesSIncr], ?_⟩
      intro a ha b hb
      simp at hb
      rw [hb]
      exact hall a (List.mem_of_mem_tail ha)
    · rw [if_neg hgt]
      refine List.pairwise_append.mpr ⟨hinc, by simp [TimesSIncr], ?_⟩
      intro a ha b hb
      simp at hb
      rw [hb]
      exact hall a ha

/-- C4 witness: preservation applied to a concrete sorted two-candle
series and an incoming candle with a strictly larger time. -/
theorem mergeOne_preserves_strict_times_witness :
    ([mkC 0, mkC 1].getLast? = some (mkC 1)) ∧ TimesSIncr [mkC 0, mkC 1] ∧
    (mkC 1).time ≤ (mkC 5).time ∧
    TimesSIncr (mergeOne [mkC 0, mkC 1] (mkC 5)) :=
  ⟨by rfl, by decide, by decide,
    mergeOne_preserves_strict_times [mkC 0, mkC 1] (mkC 5) (mkC 1)
      (by rfl) (by decide) (by decide)⟩

/-- C4 counterexample: merging a streamed candle whose time is strictly
smaller than the last stored time appends it out of order, breaking the
strictly-increasing invariant. -/
theorem mergeOne_strict_times_counterexample :
    TimesSIncr [mkC 2] ∧ ¬ TimesSIncr (mergeOne [mkC 2] (mkC 1)) := by
  constructor
  · decide
  · decide

/-- Sum of the first n close values; translation of the inner summation
loop of calculateEMA at the index period-1. -/
def sumCloses (data : List KlineData) (n : ℕ) : ℚ :=
  ((data.take n).map KlineData.close).sum

/-- Main loop of calculateEMA (utils/indicators.ts lines 8-28), with the
running index i and carried accumulator ema made explicit; fuel counts the
remaining iterations. Comparisons against period-1 are taken in ℤ, as in
JavaScript arithmetic. -/
def emaGo (data : List KlineData) (k : ℚ) (p : ℕ) :
    ℕ → ℕ → ℚ → List (Option ℚ)
  | 0, _, _ => []
  | fuel + 1, i, ema =>
    let c := data.getD i default
    if (i : ℤ) < (p : ℤ) - 1 then
      none :: emaGo data k p fuel (i + 1) ((ema * (i : ℚ) + c.close) / ((i : ℚ) + 1))
    else if (i : ℤ) = (p : ℤ) - 1 then
      let e := sumCloses data (i + 1) / (p : ℚ)
      some e :: emaGo data k p fuel (i + 1) e
    else
      let e := c.close * k + ema * (1 - k)
      some e :: emaGo data k p fuel (i + 1) e

/-- calculateEMA of utils/indicators.ts. The function reads data[0].close
before any length guard, so on the empty array the member access of an
undefined element throws; this is rendered as Except.error. -/
def calculateEMA (data : List KlineData) (period : ℕ) :
    Except Unit (List (Option ℚ)) :=
  match data with
  | [] => Except.error ()
  | c0 :: _ =>
    Except.ok (emaGo data (2 / ((period : ℚ) + 1)) period data.length 0 c0.close)

/-- One slot of the RSI output array: null for warm-up indices, NaN when
the IEEE evaluation is the indeterminate 0/0, or a real number. -/
inductive RsiVal where
  | null
  | nan
  | num (q : ℚ)
deriving DecidableEq

/-- Math.abs as JavaScript defines it on the reals. -/
def jsAbs (q : ℚ) : ℚ := if q < 0 then -q else q

/-- Value of one RSI output slot as JavaScript computes
100 - 100/(1 + g/l) in IEEE arithmetic for nonnegative g and l: a real
number when l is nonzero, exactly 100 when l is zero and g positive
(g/l overflows to infinity), and NaN when both are zero. -/
def jsRsiOf (g l : ℚ) : RsiVal :=
  if l = 0 then (if g = 0 then RsiVal.nan else RsiVal.num 100)
  else RsiVal.num (100 - 100 / (1 + g / l))

/-- Loop of the normative Wilder pass of calculateRSI
(utils/indicators.ts lines 66-85), carrying the previous candle, the index
i and the smoothing accumulators. At the index equal to period the code
divides the accumulators by period without folding in the current change,
exactly as the source does. -/
def rsiGo (period : ℕ) :
    List KlineData → KlineData → ℕ → ℚ → ℚ → List RsiVal
  | [], _, _, _, _ => []
  | c :: rest, prev, i, g, l =>
    let change := c.close - prev.close
    let gain := if 0 < change then change else 0
    let loss := if change < 0 then jsAbs change else 0
    if i < period then
      RsiVal.null :: rsiGo period rest c (i + 1) (g + gain) (l + loss)
    else if i = period then
      let ag := g / (period : ℚ)
      let al := l / (period : ℚ)
      jsRsiOf ag al :: rsiGo period rest c (i + 1) ag al
    else
      let ag := (g * ((period : ℚ) - 1) + gain) / (period : ℚ)
      let al := (l * ((period : ℚ) - 1) + loss) / (period : ℚ)
      jsRsiOf ag al :: rsiGo period rest c (i + 1) ag al

/-- calculateRSI of utils/indicators.ts. The function's first loop fills
an array that the function discards; only the second (Wilder) loop
determines the returned array, whose slot 0 is always null. -/
def calculateRSI (data : List KlineData) (period : ℕ) : List RsiVal :=
  match data with
  | [] => []
  | c0 :: rest => RsiVal.null :: rsiGo period rest c0 1 0 0

/-- Loop of calculateKDJ (utils/indicators.ts lines 97-123), carrying the
index and the smoothed K and D values seeded at 50. -/
def kdjGo (data : List KlineData) (period : ℕ) :
    ℕ → ℕ → ℚ → ℚ → List (Option ℚ) × List (Option ℚ) × List (Option ℚ)
  | 0, _, _, _ => ([], [], [])
  | fuel + 1, i, kv, dv =>
    if (i : ℤ) < (period : ℤ) - 1 then
      let r := kdjGo data period fuel (i + 1) kv dv
      (none :: r.1, none :: r.2.1, none :: r.2.2)
    else
      let c := data.getD i default
      let low := (List.range period).foldl
        (fun acc j => min acc (data.getD (i - j) default).low) c.low
      let high := (List.range period).foldl
        (fun acc j => max acc (data.getD (i - j) default).high) c.high
      let rsv := if high = low then 50 else (c.close - low) / (high - low) * 100
      let kv' := 2 / 3 * kv + 1 / 3 * rsv
      let dv' := 2 / 3 * dv + 1 / 3 * kv'
      let jv := 3 * kv' - 2 * dv'
      let r := kdjGo data period fuel (i + 1) kv' dv'
      (some kv' :: r.1, some dv' :: r.2.1, some jv :: r.2.2)

/-- calculateKDJ of utils/indicators.ts. -/
def calculateKDJ (data : List KlineData) (period : ℕ) :
    List (Option ℚ) × List (Option ℚ) × List (Option ℚ) :=
  kdjGo data period data.length 0 50 50

/-- Scan state of calculateSAR: current trend direction, extreme point,
acceleration factor, and the SAR value written at the previous index. -/
structure SarState where
  isUptrend : Bool
  ep : ℚ
  af : ℚ
  prevSar : ℚ
deriving DecidableEq

/-- Candidate SAR before the reversal check (utils/indicators.ts lines
148-162): the accelerated step from the previous SAR, clamped in an
uptrend to the lows of the previous two candles and in a downtrend to
their highs. -/
def sarNewSar (p1 p2 : KlineData) (s : SarState) : ℚ :=
  let ns := s.prevSar + s.af * (s.ep - s.prevSar)
  if s.isUptrend then min (min ns p1.low) p2.low
  else max (max ns p1.high) p2.high

/-- Reversal condition of the SAR scan at one tick: in an uptrend the
current low breaches the candidate SAR, in a downtrend the current high
does. -/
def sarReversed (p1 p2 cur : KlineData) (s : SarState) : Bool :=
  if s.isUptrend then decide (cur.low < sarNewSar p1 p2 s)
  else decide (sarNewSar p1 p2 s < cur.high)

/-- New-extreme condition of the SAR scan at one tick: the current candle
extends the extreme point in the direction of the trend. -/
def sarNewExtreme (cur : KlineData) (s : SarState) : Bool :=
  if s.isUptrend then decide (s.ep < cur.high) else decide (cur.low < s.ep)

/-- One tick of the calculateSAR scan (utils/indicators.ts lines 144-199):
on a reversal the SAR resets to the extreme point, the trend flips, the
extreme point restarts at the breaching price and the acceleration factor
resets to startAf; otherwise a new extreme advances the extreme point and
increments the acceleration factor by startAf capped at maxAf, and the
state is unchanged apart from the written SAR otherwise. -/
def sarStep (startAf maxAf : ℚ) (p1 p2 cur : KlineData) (s : SarState) :
    SarState :=
  let ns := sarNewSar p1 p2 s
  if s.isUptrend then
    if cur.low < ns then ⟨false, cur.low, startAf, s.ep⟩
    else if s.ep < cur.high then
      ⟨true, cur.high, min (s.af + startAf) maxAf, ns⟩
    else ⟨s.isUptrend, s.ep, s.af, ns⟩
  else
    if ns < cur.high then ⟨true, cur.high, startAf, s.ep⟩
    else if cur.low < s.ep then
      ⟨false, cur.low, min (s.af + startAf) maxAf, ns⟩
    else ⟨s.isUptrend, s.ep, s.af, ns⟩

/-- Scan of calculateSAR over the candles after the first, carrying the
previous two candles for the clamp rule; at the first step both previous
candles are candle 0, matching the low2 = low1 special case at i = 1. -/
def sarRun (startAf maxAf : ℚ) :
    List KlineData → KlineData → KlineData → SarState → List SarState
  | [], _, _, _ => []
  | cur :: rest, p1, p2, s =>
    let s' := sarStep startAf maxAf p1 p2 cur s
    s' :: sarRun startAf maxAf rest cur p1 s'

/-- Initial SAR state from candle 0 (utils/indicators.ts lines 136-142):
uptrend when close exceeds open, extreme point at the trend-side extreme,
acceleration factor at startAf, and initial SAR at the opposite extreme. -/
def sarInit (startAf : ℚ) (c0 : KlineData) : SarState :=
  let up := c0.«open» < c0.close
  ⟨up, if up then c0.high else c0.low, startAf, if up then c0.low else c0.high⟩

/-- All states of the calculateSAR scan, the initial state included; the
SAR written at index i is the prevSar field of the state at position i. -/
def sarStates (startAf maxAf : ℚ) : List KlineData → List SarState
  | [] => []
  | c0 :: rest =>
    let s0 := sarInit startAf c0
    s0 :: sarRun startAf maxAf rest c0 c0 s0

/-- calculateSAR of utils/indicators.ts: empty output on empty input, all
null below five candles, otherwise the scan's written SAR values. -/
def calculateSAR (data : List KlineData) (startAf maxAf : ℚ) :
    List (Option ℚ) :=
  if data.length = 0 then []
  else if data.length < 5 then List.replicate data.length none
  else (sarStates startAf maxAf data).map (fun s => some s.prevSar)

/-- Position period-1 of the EMA loop output, reached after consuming the
warm-up prefix, carries the simple average of the first period closes;
the inner summation of the source recomputes it from the data alone, so
the carried accumulator is irrelevant at this index. -/
theorem emaGo_get_warmup (data : List KlineData) (k : ℚ) (p : ℕ)
    (hlen : p ≤ data.length) :
    ∀ (j i : ℕ) (ema : ℚ) (fuel : ℕ), i + j + 1 = p →
      i + fuel = data.length →
      (emaGo data k p fuel i ema).get? j =
        some (some (sumCloses data p / (p : ℚ))) := by
  intro j
  induction j with
  | zero =>
    intro i ema fuel hij hif
    have hfuel : fuel ≠ 0 := by omega
    obtain ⟨f, rfl⟩ := Nat.exists_eq_succ_of_ne_zero hfuel
    rw [emaGo]
    have h1 : ¬ ((i : ℤ) < (p : ℤ) - 1) := by omega
    have h2 : (i : ℤ) = (p : ℤ) - 1 := by omega
    rw [if_neg h1, if_pos h2]
    have h3 : i + 1 = p := by omega
    rw [h3]
    rfl
  | succ j ih =>
    intro i ema fuel hij hif
    have hfuel : fuel ≠ 0 := by omega
    obtain ⟨f, rfl⟩ := Nat.exists_eq_succ_of_ne_zero hfuel
    rw [emaGo]
    have h1 : (i : ℤ) < (p : ℤ) - 1 := by omega
    rw [if_pos h1]
    rw [List.get?_cons_succ]
    exact ih (i + 1) _ f (by omega) (by omega)

/-- C6. For every period p at least 1 and every candle series of length at
least p, calculateEMA succeeds and its output at index p-1 is the
arithmetic mean of the first p close values. -/
theorem calculateEMA_warmup_is_sma (data : List KlineData) (p : ℕ)
    (hp : 1 ≤ p) (hlen : p ≤ data.length) :
    (calculateEMA data p).map (fun out => out.get? (p - 1)) =
      Except.ok (some (some (sumCloses data p / (p : ℚ)))) := by
  cases data with
  | nil => simp at hlen; omega
  | cons c0 rest =>
    unfold calculateEMA
    dsimp only [Except.map]
    rw [emaGo_get_warmup (c0 :: rest) _ p hlen (p - 1) 0 c0.close
      (c0 :: rest).length (by omega) (by omega)]

/-- C6 witness: EMA with period 2 over closes 1, 2, 4 has at index 1 the
mean of the first two closes, namely 3/2. -/
theorem calculateEMA_warmup_is_sma_witness :
    (1 ≤ 2) ∧ 2 ≤ ([⟨0,0,0,0,1,0⟩, ⟨0,0,0,0,2,0⟩, ⟨0,0,0,0,4,0⟩] : List KlineData).length ∧
    (calculateEMA [⟨0,0,0,0,1,0⟩, ⟨0,0,0,0,2,0⟩, ⟨0,0,0,0,4,0⟩] 2).map
        (fun out => out.get? (2 - 1)) =
      Except.ok (some (some ((3 : ℚ) / 2))) := by
  refine ⟨by omega, by decide, ?_⟩
  have h := calculateEMA_warmup_is_sma
    [⟨0,0,0,0,1,0⟩, ⟨0,0,0,0,2,0⟩, ⟨0,0,0,0,4,0⟩] 2 (by omega) (by decide)
  rw [h]
  norm_num [sumCloses]

/-- C3 counterexample: calculateEMA on the empty series reads the close of
the undefined element 0 and throws, instead of returning an empty or
all-null output; in the embedding the call is an error, not a success. -/
theorem calculateEMA_empty_counterexample :
    calculateEMA ([] : List KlineData) 7 = Except.error () ∧
    (calculateEMA ([] : List KlineData) 7).isOk = false :=
  ⟨rfl, rfl⟩

/-- C3 (amended part). calculateRSI, calculateKDJ and calculateSAR are
total on every series and return empty outputs on the empty series;
calculateEMA is total on every nonempty series but throws on the empty
one. -/
theorem indicators_total_spec (p q : ℕ) (a b : ℚ)
    (data : List KlineData) (hne : data ≠ []) :
    calculateRSI [] p = [] ∧
    calculateKDJ [] q = ([], [], []) ∧
    calculateSAR [] a b = [] ∧
    (calculateEMA data p).isOk = true := by
  refine ⟨rfl, rfl, rfl, ?_⟩
  cases data with
  | nil => exact absurd rfl hne
  | cons c rest => rfl

/-- C3 witness: the totality specification evaluated at the default
periods and a one-candle series. -/
theorem indicators_total_spec_witness :
    ([mkC 0] : List KlineData) ≠ [] ∧
    calculateRSI [] 14 = [] ∧
    calculateKDJ [] 9 = ([], [], []) ∧
    calculateSAR [] 0.02 0.2 = [] ∧
    (calculateEMA [mkC 0] 14).isOk = true := by
  have h := indicators_total_spec 14 9 0.02 0.2 [mkC 0] (by decide)
  exact ⟨by decide, h.1, h.2.1, h.2.2.1, h.2.2.2⟩

/-- A 15-candle series with constant prices: every change is zero, so both
Wilder accumulators stay zero. -/
def flatData : List KlineData := List.replicate 15 ⟨0, 1, 1, 1, 1, 0⟩

/-- C2 evaluation at the failing input: on a constant-price series of 15
candles with the default period 14, the index-14 slot (the first defined
one) is NaN, because the source divides avgGain by avgLoss directly and
both are zero; the specification demands exactly 100 there. -/
theorem calculateRSI_nan_on_flat :
    calculateRSI flatData 14 = List.replicate 14 RsiVal.null ++ [RsiVal.nan] := by
  with_unfolding_all decide

/-- One SAR tick keeps the acceleration factor at or below maxAf whenever
startAf is. -/
theorem sarStep_af_le (startAf maxAf : ℚ) (hsm : startAf ≤ maxAf)
    (p1 p2 cur : KlineData) (s : SarState) (h : s.af ≤ maxAf) :
    (sarStep startAf maxAf p1 p2 cur s).af ≤ maxAf := by
  unfold sarStep
  cases hu : s.isUptrend <;> dsimp only [hu] <;> split_ifs <;>
    first
      | exact hsm
      | exact min_le_right _ _
      | exact h

/-- Every state of the SAR scan after the initial one keeps the
acceleration factor at or below maxAf. -/
theorem sarRun_af_le (startAf maxAf : ℚ) (hsm : startAf ≤ maxAf) :
    ∀ (rest : List KlineData) (p1 p2 : KlineData) (s : SarState),
      s.af ≤ maxAf → ∀ t ∈ sarRun startAf maxAf rest p1 p2 s, t.af ≤ maxAf := by
  intro rest
  induction rest with
  | nil =>
    intro p1 p2 s h t ht
    simp [sarRun] at ht
  | cons cur rest ih =>
    intro p1 p2 s h t ht
    rw [sarRun] at ht
    rcases List.mem_cons.mp ht with rfl | hmem
    · exact sarStep_af_le startAf maxAf hsm p1 p2 cur s h
    · exact ih cur p1 _ (sarStep_af_le startAf maxAf hsm p1 p2 cur s h) t hmem

/-- One SAR tick changes the acceleration factor exactly as the three
cases prescribe: reset to startAf on a reversal, increment by startAf
capped at maxAf on a new extreme without reversal, unchanged otherwise. -/
theorem sarStep_af_cases (startAf maxAf : ℚ) (p1 p2 cur : KlineData)
    (s : SarState) :
    (sarReversed p1 p2 cur s = true →
      (sarStep startAf maxAf p1 p2 cur s).af = startAf) ∧
    (sarReversed p1 p2 cur s = false → sarNewExtreme cur s = true →
      (sarStep startAf maxAf p1 p2 cur s).af = min (s.af + startAf) maxAf) ∧
    (sarReversed p1 p2 cur s = false → sarNewExtreme cur s = false →
      (sarStep startAf maxAf p1 p2 cur s).af = s.af) := by
  unfold sarStep sarReversed sarNewExtreme
  cases hu : s.isUptrend <;> dsimp only [hu] <;> split_ifs <;> simp_all

/-- C7. With startAf 0.02 and maxAf 0.2 and at least five candles, the
calculateSAR output is the written SAR of each scan state, the
acceleration factor never exceeds 0.2 at any point of the scan, and one
tick moves it by exactly the specified rule: reset to 0.02 on a reversal,
increment by 0.02 capped at 0.2 on a new-extreme tick without reversal,
unchanged otherwise. -/
theorem calculateSAR_af_spec (data : List KlineData)
    (h5 : 5 ≤ data.length) :
    calculateSAR data 0.02 0.2 =
      (sarStates 0.02 0.2 data).map (fun s => some s.prevSar) ∧
    (∀ s ∈ sarStates 0.02 0.2 data, s.af ≤ 0.2) ∧
    (∀ p1 p2 cur s, sarReversed p1 p2 cur s = true →
      (sarStep 0.02 0.2 p1 p2 cur s).af = 0.02) ∧
    (∀ p1 p2 cur s, sarReversed p1 p2 cur s = false →
      sarNewExtreme cur s = true →
      (sarStep 0.02 0.2 p1 p2 cur s).af = min (s.af + 0.02) 0.2) ∧
    (∀ p1 p2 cur s, sarReversed p1 p2 cur s = false →
      sarNewExtreme cur s = false →
      (sarStep 0.02 0.2 p1 p2 cur s).af = s.af) := by
  have hsm : (0.02 : ℚ) ≤ 0.2 := by norm_num
  refine ⟨?_, ?_, ?_, ?_, ?_⟩
  · unfold calculateSAR
    rw [if_neg (by omega), if_neg (by omega)]
  · cases data with
    | nil => simp at h5
    | cons c0 rest =>
      intro s hs
      rw [sarStates] at hs
      rcases List.mem_cons.mp hs with rfl | hmem
      · exact hsm
      · exact sarRun_af_le 0.02 0.2 hsm rest c0 c0 (sarInit 0.02 c0) hsm s hmem
  · intro p1 p2 cur s h
    exact (sarStep_af_cases 0.02 0.2 p1 p2 cur s).1 h
  · intro p1 p2 cur s h1 h2
    exact (sarStep_af_cases 0.02 0.2 p1 p2 cur s).2.1 h1 h2
  · intro p1 p2 cur s h1 h2
    exact (sarStep_af_cases 0.02 0.2 p1 p2 cur s).2.2 h1 h2

/-- A five-candle rising series for the SAR witness. -/
def sarData5 : List KlineData :=
  [⟨0, 1, 3, 0, 2, 0⟩, ⟨1, 2, 4, 1, 3, 0⟩, ⟨2, 3, 5, 2, 4, 0⟩,
   ⟨3, 4, 6, 3, 5, 0⟩, ⟨4, 5, 7, 4, 6, 0⟩]

/-- C7 witness: the acceleration-factor bound instantiated on a concrete
five-candle series. -/
theorem calculateSAR_af_spec_witness :
    5 ≤ sarData5.length ∧ ∀ s ∈ sarStates 0.02 0.2 sarData5, s.af ≤ 0.2 :=
  ⟨by decide, (calculateSAR_af_spec sarData5 (by decide)).2.1⟩

/-- JavaScript runtime value as visible to the fetch layer: the JSON value
kinds plus undefined, which member and index access produce on absent
properties. -/
inductive JValue where
  | undefined
  | null
  | bool (b : Bool)
  | num (q : ℚ)
  | str (s : String)
  | arr (elems : List JValue)
  | obj (fields : List (String × JValue))

/-- Index access v[i]: element of an array when present, undefined
otherwise; never throws on a non-null value. -/
def jGet (v : JValue) (i : ℕ) : JValue :=
  match v with
  | .arr l => l.getD i .undefined
  | _ => .undefined

/-- Property access v.k on a non-null, non-undefined value: the field of
an object when present, undefined otherwise. -/
def jField (v : JValue) (k : String) : JValue :=
  match v with
  | .obj fields => ((fields.find? (fun p => p.1 = k)).map (fun p => p.2)).getD .undefined
  | _ => .undefined

/-- JavaScript truthiness. -/
def truthy (v : JValue) : Bool :=
  match v with
  | .undefined => false
  | .null => false
  | .bool b => b
  | .num q => decide (q ≠ 0)
  | .str s => decide (s ≠ "")
  | .arr _ => true
  | .obj _ => true

/-- JavaScript String.replace with a plain-string pattern replaces only
the first occurrence. -/
def jsReplaceFirst (s pat rep : String) : String :=
  match s.splitOn pat with
  | [] => s
  | [x] => x
  | x :: y :: rest => x ++ rep ++ String.intercalate pat (y :: rest)

/-- Relay endpoint of services/binanceService.ts. -/
def PROXY_URL : String := "https://api.allorigins.win/get?url="

/-- Environment of fetchWithFallback: the outcome of the direct attempt
(fetch of the url, ok check and body JSON parse, collapsed into one
result), the outcome of a relay request keyed by the requested URL, and
the browser primitives encodeURIComponent and JSON.parse. -/
structure FetchEnv where
  direct : Except String JValue
  relay : String → Except String JValue
  enc : String → String
  parse : JValue → Option JValue

/-- fetchWithFallback of services/binanceService.ts (lines 47-79),
returning the result together with the list of relay URLs requested: the
direct attempt is used when it succeeds; otherwise the relay is asked for
the URL-encoded original URL, its envelope field named contents is parsed
as JSON when truthy (the raw contents value is returned when that parse
fails), a missing or falsy contents is an error, and a relay failure is
rethrown as the overall error. -/
def fetchWithFallback (env : FetchEnv) (url : String) :
    Except String JValue × List String :=
  match env.direct with
  | .ok v => (.ok v, [])
  | .error _ =>
    let proxyUrl := PROXY_URL ++ env.enc url
    match env.relay proxyUrl with
    | .error e => (.error e, [proxyUrl])
    | .ok proxyData =>
      let contents := jField proxyData "contents"
      if truthy contents then
        match env.parse contents with
        | some v => (.ok v, [proxyUrl])
        | none => (.ok contents, [proxyUrl])
      else (.error "Proxy response missing contents", [proxyUrl])

/-- The five exchange variants of types.ts ExchangeType. -/
inductive ExchangeType where
  | Binance
  | Bybit
  | MEXC
  | Gate
  | OKX
deriving DecidableEq

/-- Canonical ticker snapshot; mirrors TickerData of types.ts. -/
structure TickerData where
  symbol : String
  priceChange : String
  priceChangePercent : String
  lastPrice : String
  highPrice : String
  lowPrice : String
  volume : String
  exchange : ExchangeType
deriving DecidableEq

/-- getExchangeSymbol of services/binanceService.ts. -/
def getExchangeSymbol (symbol : String) (exchange : ExchangeType) : String :=
  let s := symbol.toUpper
  match exchange with
  | .Gate => s ++ "_USDT"
  | .OKX => s ++ "-USDT"
  | _ => s ++ "USDT"

/-- The fixed order in which fetchAvailableTickers probes the five
exchanges (services/binanceService.ts lines 207-213). -/
def exchangePriority : List ExchangeType :=
  [.Binance, .Bybit, .MEXC, .Gate, .OKX]

/-- fetchAvailableTickers of services/binanceService.ts (lines 206-223)
over an environment giving each per-exchange probe outcome: the settled
results of the five probes, in the fixed order, filtered to the fulfilled
ones. -/
def fetchAvailableTickers (probe : ExchangeType → Option TickerData) :
    List TickerData :=
  let results := [probe .Binance, probe .Bybit, probe .MEXC,
    probe .Gate, probe .OKX]
  results.foldl
    (fun acc r => match r with | some t => acc ++ [t] | none => acc) []

/-- Slow path of App.tsx loadData (lines 152-165): probe all exchanges,
fail with the not-found error when none succeeds, otherwise select the
first success as the active exchange and its ticker. -/
def slowPathSelect (probe : ExchangeType → Option TickerData) :
    Except String (ExchangeType × TickerData) :=
  match fetchAvailableTickers probe with
  | [] => .error "Not found"
  | t :: _ => .ok (t.exchange, t)

/-- Collecting fulfilled results in order is filterMap of the identity. -/
theorem foldl_collect_eq_filterMap (rs : List (Option TickerData)) :
    ∀ acc : List TickerData,
      rs.foldl (fun acc r => match r with
        | some t => acc ++ [t] | none => acc) acc =
      acc ++ rs.filterMap id := by
  induction rs with
  | nil => intro acc; simp
  | cons r rest ih =>
    intro acc
    cases r with
    | some t => simp [List.foldl_cons, ih, List.filterMap_cons]
    | none => simp [List.foldl_cons, ih, List.filterMap_cons]

/-- C8. fetchAvailableTickers returns exactly the fulfilled probes in the
fixed priority order Binance, Bybit, MEXC, Gate, OKX, independently per
exchange; it is empty exactly when all five probes fail; and the slow path
selects the first element of that list as the active exchange, failing
with the not-found error only when the list is empty. -/
theorem fetchAvailableTickers_spec (probe : ExchangeType → Option TickerData) :
    fetchAvailableTickers probe = exchangePriority.filterMap probe ∧
    (fetchAvailableTickers probe = [] ↔
      ∀ e ∈ exchangePriority, probe e = none) ∧
    (∀ t ts, fetchAvailableTickers probe = t :: ts →
      slowPathSelect probe = .ok (t.exchange, t)) ∧
    (fetchAvailableTickers probe = [] →
      slowPathSelect probe = .error "Not found") := by
  have h1 : fetchAvailableTickers probe = exchangePriority.filterMap probe := by
    unfold fetchAvailableTickers
    rw [foldl_collect_eq_filterMap]
    simp only [exchangePriority, List.filterMap_cons, List.filterMap_nil,
      List.nil_append, id]
  refine ⟨h1, ?_, ?_, ?_⟩
  · rw [h1, List.filterMap_eq_nil_iff]
  · intro t ts h
    unfold slowPathSelect
    rw [h]
  · intro h
    unfold slowPathSelect
    rw [h]

/-- A ticker snapshot carried by the Bybit probe in the C8 witness. -/
def tB : TickerData := ⟨"AAAUSDT", "0", "0", "0", "0", "0", "0", .Bybit⟩

/-- A ticker snapshot carried by the Gate probe in the C8 witness. -/
def tG : TickerData := ⟨"AAA_USDT", "0", "0", "0", "0", "0", "0", .Gate⟩

/-- Probe outcome with Bybit and Gate succeeding and the rest failing. -/
def probeW : ExchangeType → Option TickerData := fun e =>
  match e with
  | .Bybit => some tB
  | .Gate => some tG
  | _ => none

/-- C8 witness: with only Bybit and Gate succeeding, the availability list
is exactly those two in priority order and the slow path picks Bybit. -/
theorem fetchAvailableTickers_spec_witness :
    fetchAvailableTickers probeW = [tB, tG] ∧
    slowPathSelect probeW = .ok (tB.exchange, tB) :=
  ⟨rfl, (fetchAvailableTickers_spec probeW).2.2.1 tB [tG] rfl⟩

/-- C5. fetchWithFallback uses the direct result untouched when the direct
attempt succeeds (no relay request); when the direct attempt fails it
requests the relay exactly once, at the URL-encoded original URL; a relay
failure becomes the overall error; and a successful relay envelope with a
nonempty contents string yields that string parsed as JSON, or the raw
string itself when the parse fails. -/
theorem fetchWithFallback_spec (env : FetchEnv) (url : String) :
    (∀ v, env.direct = .ok v → fetchWithFallback env url = (.ok v, [])) ∧
    (∀ e, env.direct = .error e →
      (fetchWithFallback env url).2 = [PROXY_URL ++ env.enc url]) ∧
    (∀ e e', env.direct = .error e →
      env.relay (PROXY_URL ++ env.enc url) = .error e' →
      fetchWithFallback env url = (.error e', [PROXY_URL ++ env.enc url])) ∧
    (∀ e pd s v, env.direct = .error e →
      env.relay (PROXY_URL ++ env.enc url) = .ok pd →
      jField pd "contents" = .str s → s ≠ "" →
      env.parse (.str s) = some v →
      fetchWithFallback env url = (.ok v, [PROXY_URL ++ env.enc url])) ∧
    (∀ e pd s, env.direct = .error e →
      env.relay (PROXY_URL ++ env.enc url) = .ok pd →
      jField pd "contents" = .str s → s ≠ "" →
      env.parse (.str s) = none →
      fetchWithFallback env url = (.ok (.str s), [PROXY_URL ++ env.enc url])) := by
  refine ⟨?_, ?_, ?_, ?_, ?_⟩
  · intro v h
    unfold fetchWithFallback
    rw [h]
  · intro e h
    unfold fetchWithFallback
    rw [h]
    dsimp only
    cases hrel : env.relay (PROXY_URL ++ env.enc url) with
    | error e' => rfl
    | ok pd =>
      dsimp only
      split_ifs with ht
      · cases env.parse (jField pd "contents") <;> rfl
      · rfl
  · intro e e' h hrel
    unfold fetchWithFallback
    rw [h]
    dsimp only
    rw [hrel]
  · intro e pd s v h hrel hc hs hp
    unfold fetchWithFallback
    rw [h]
    dsimp only
    rw [hrel]
    dsimp only
    rw [hc]
    rw [if_pos (by simp [truthy, hs]), hp]
  · intro e pd s h hrel hc hs hp
    unfold fetchWithFallback
    rw [h]
    dsimp only
    rw [hrel]
    dsimp only
    rw [hc]
    rw [if_pos (by simp [truthy, hs]), hp]

/-- Environment where both the direct attempt and the relay fail. -/
def envW : FetchEnv :=
  { direct := .error "direct failed",
    relay := fun _ => .error "relay failed",
    enc := fun s => s,
    parse := fun _ => none }

/-- C5 witness: with a failing direct endpoint and a failing relay, the
relay is requested once at the encoded URL and its failure is the overall
error. -/
theorem fetchWithFallback_spec_witness :
    envW.direct = Except.error "direct failed" ∧
    envW.relay (PROXY_URL ++ envW.enc "https://x") =
      Except.error "relay failed" ∧
    fetchWithFallback envW "https://x" =
      (Except.error "relay failed", [PROXY_URL ++ envW.enc "https://x"]) :=
  ⟨rfl, rfl, (fetchWithFallback_spec envW "https://x").2.2.1
    "direct failed" "relay failed" rfl rfl⟩

/-- Exchange REST endpoint roots of services/binanceService.ts. -/
def BINANCE_API : String := "https://api.binance.com/api/v3"

/-- Bybit REST endpoint root. -/
def BYBIT_API : String := "https://api.bybit.com/v5/market"

/-- MEXC REST endpoint root. -/
def MEXC_API : String := "https://api.mexc.com/api/v3"

/-- Gate REST endpoint root. -/
def GATE_API : String := "https://api.gateio.ws/api/v4"

/-- OKX REST endpoint root. -/
def OKX_API : String := "https://www.okx.com/api/v5/market"

/-- Interval token rewriting of the Bybit branch of fetchKlines
(services/binanceService.ts lines 239-245): each test looks at the
original interval string, later assignments win. -/
def bybitIntervalOf (interval : String) : String :=
  let b := interval
  let b := if interval.endsWith "m" then jsReplaceFirst interval "m" "" else b
  let b := if interval = "1h" then "60" else b
  let b := if interval = "4h" then "240" else b
  let b := if interval = "1d" then "D" else b
  let b := if interval = "1w" then "W" else b
  let b := if interval = "1M" then "M" else b
  b

/-- Interval token rewriting of the OKX branch of fetchKlines
(services/binanceService.ts lines 278-281). -/
def okxIntervalOf (interval : String) : String :=
  let b := interval
  let b := if interval = "1h" then "1H" else b
  let b := if interval = "4h" then "4H" else b
  let b := if interval = "1d" then "1D" else b
  b

/-- Environment of fetchKlines: the outcome of fetchWithFallback keyed by
the requested URL, and the numeric browser primitives used by the row
mappers (plain number coercion, parseFloat, parseInt). -/
structure KlinesEnv where
  fetchRes : String → Except String JValue
  num : JValue → ℚ
  parseFloat : JValue → ℚ
  parseInt : JValue → ℚ

/-- Row mapper of the Binance and MEXC kline branches: the raw timestamp
at slot 0 and parseFloat of slots 1-5. -/
def binanceRow (env : KlinesEnv) (d : JValue) : KlineData :=
  { time := env.num (jGet d 0), «open» := env.parseFloat (jGet d 1),
    high := env.parseFloat (jGet d 2), low := env.parseFloat (jGet d 3),
    close := env.parseFloat (jGet d 4), volume := env.parseFloat (jGet d 5) }

/-- Row mapper of the Bybit kline branch: parseInt of the timestamp and
parseFloat of slots 1-5. -/
def bybitRow (env : KlinesEnv) (d : JValue) : KlineData :=
  { time := env.parseInt (jGet d 0), «open» := env.parseFloat (jGet d 1),
    high := env.parseFloat (jGet d 2), low := env.parseFloat (jGet d 3),
    close := env.parseFloat (jGet d 4), volume := env.parseFloat (jGet d 5) }

/-- Row mapper of the Gate kline branch: seconds timestamp scaled by 1000
and the Gate field order timestamp, base-volume, close, high, low, open. -/
def gateRow (env : KlinesEnv) (d : JValue) : KlineData :=
  { time := env.parseInt (jGet d 0) * 1000, «open» := env.parseFloat (jGet d 5),
    high := env.parseFloat (jGet d 3), low := env.parseFloat (jGet d 4),
    close := env.parseFloat (jGet d 2), volume := env.parseFloat (jGet d 1) }

/-- Row mapper of the OKX candles branch: parseInt timestamp, slots 1-4
for prices and slot 6 for the quote-currency volume. -/
def okxRow (env : KlinesEnv) (d : JValue) : KlineData :=
  { time := env.parseInt (jGet d 0), «open» := env.parseFloat (jGet d 1),
    high := env.parseFloat (jGet d 2), low := env.parseFloat (jGet d 3),
    close := env.parseFloat (jGet d 4), volume := env.parseFloat (jGet d 6) }

/-- Body of fetchKlines (services/binanceService.ts lines 229-293), the
per-exchange branches inside the try block: an error value stands for a
thrown exception (network failure rethrown by fetchWithFallback, an
explicit invalid-data throw, or a member access on a null or undefined
response). -/
def fetchKlinesBody (env : KlinesEnv) (symbol interval : String)
    (limit : ℕ) (exchange : ExchangeType) :
    Except String (List KlineData) :=
  let formattedSymbol := getExchangeSymbol symbol exchange
  match exchange with
  | .Binance =>
    match env.fetchRes (BINANCE_API ++ "/klines?symbol=" ++ formattedSymbol
        ++ "&interval=" ++ interval ++ "&limit=" ++ toString limit) with
    | .error e => .error e
    | .ok data =>
      match data with
      | .arr rows => .ok (rows.map (binanceRow env))
      | _ => .error "Invalid Binance Data"
  | .Bybit =>
    match env.fetchRes (BYBIT_API ++ "/kline?category=spot&symbol="
        ++ formattedSymbol ++ "&interval=" ++ bybitIntervalOf interval
        ++ "&limit=" ++ toString limit) with
    | .error e => .error e
    | .ok data =>
      match data with
      | .null => .error "TypeError"
      | .undefined => .error "TypeError"
      | _ =>
        let r := jField data "result"
        let list := match r with
          | .null => JValue.undefined
          | .undefined => JValue.undefined
          | _ => jField r "list"
        match list with
        | .arr rows => .ok (rows.reverse.map (bybitRow env))
        | _ => .error "Invalid Bybit Data"
  | .MEXC =>
    match env.fetchRes (MEXC_API ++ "/klines?symbol=" ++ formattedSymbol
        ++ "&interval=" ++ interval ++ "&limit=" ++ toString limit) with
    | .error e => .error e
    | .ok data =>
      match data with
      | .arr rows => .ok (rows.map (binanceRow env))
      | _ => .error "Invalid MEXC Data"
  | .Gate =>
    match env.fetchRes (GATE_API ++ "/spot/candlesticks?currency_pair="
        ++ formattedSymbol ++ "&interval=" ++ interval ++ "&limit="
        ++ toString limit) with
    | .error e => .error e
    | .ok data =>
      match data with
      | .arr rows => .ok (rows.map (gateRow env))
      | _ => .error "Invalid Gate Data"
  | .OKX =>
    match env.fetchRes (OKX_API ++ "/candles?instId=" ++ formattedSymbol
        ++ "&bar=" ++ okxIntervalOf interval ++ "&limit="
        ++ toString limit) with
    | .error e => .error e
    | .ok data =>
      match data with
      | .null => .error "TypeError"
      | .undefined => .error "TypeError"
      | _ =>
        match jField data "data" with
        | .arr rows => .ok (rows.reverse.map (okxRow env))
        | _ => .error "Invalid OKX Data"

/-- fetchKlines of services/binanceService.ts: the try block's value, with
every thrown exception caught and turned into the empty list. -/
def fetchKlines (env : KlinesEnv) (symbol interval : String) (limit : ℕ)
    (exchange : ExchangeType) : List KlineData :=
  match fetchKlinesBody env symbol interval limit exchange with
  | .ok l => l
  | .error _ => []

/-- C9. fetchKlines never raises for any symbol, interval, limit and
exchange: when the body succeeds the batch is returned, and every failure
of the body (network error, malformed or non-array response) yields the
empty list instead of an exception. -/
theorem fetchKlines_never_raises (env : KlinesEnv)
    (symbol interval : String) (limit : ℕ) (exchange : ExchangeType) :
    (∀ out, fetchKlinesBody env symbol interval limit exchange = .ok out →
      fetchKlines env symbol interval limit exchange = out) ∧
    (∀ err, fetchKlinesBody env symbol interval limit exchange = .error err →
      fetchKlines env symbol interval limit exchange = []) := by
  unfold fetchKlines
  constructor <;> intro x h <;> rw [h]

/-- Environment where every fetch fails with a network error. -/
def envFail : KlinesEnv :=
  { fetchRes := fun _ => .error "network down",
    num := fun _ => 0, parseFloat := fun _ => 0, parseInt := fun _ => 0 }

/-- C9 witness: with the network down, the Binance kline batch fetch
throws inside the try block and fetchKlines returns the empty list. -/
theorem fetchKlines_never_raises_witness :
    fetchKlinesBody envFail "BTC" "1h" 500 ExchangeType.Binance =
      Except.error "network down" ∧
    fetchKlines envFail "BTC" "1h" 500 ExchangeType.Binance = [] :=
  ⟨rfl, (fetchKlines_never_raises envFail "BTC" "1h" 500
    ExchangeType.Binance).2 "network down" rfl⟩
